import Mathlib

/-!
Verification development for the retraction-indexing pipeline
(`create_initial_unionlist.py`, `pubmed_coverage_query.py`,
`python_scripts/f_update_unionlist_with_coverage.py`).

Strings handled by the identifier normalizer are modelled as lists of
Unicode code points (`List Nat`); record tables are modelled as lists of
structures mirroring the pandas DataFrame columns the scripts touch.
-/

namespace RetractionIndexing

/-! ### Identifier normalizer (`convert_unicode` and the per-source DOI cleaning lines) -/

/-- Code points of a Lean string literal, used to move between readable
string literals and the `List Nat` representation of Python strings. -/
def str2cp (s : String) : List Nat :=
  s.data.map Char.toNat

/-- NFKD decomposition of one code point
(`unicodedata.normalize('NFKD', ...)`), restricted to the Latin-1
compatibility characters this development exercises; every code point
outside the listed cases is treated as NFKD-stable.  The cases are the
Unicode character database decompositions of U+00A8, U+00AF, U+00B2, U+00B3,
U+00B4, U+00B5, U+00B8, U+00B9, U+00BC, U+00BD and U+00BE.  Canonical
reordering is omitted: no modelled decomposition produces a combining
sequence that would be reordered. -/
def nfkd (n : Nat) : List Nat :=
  if n = 0xA8 then [0x20, 0x308]
  else if n = 0xAF then [0x20, 0x304]
  else if n = 0xB2 then [0x32]
  else if n = 0xB3 then [0x33]
  else if n = 0xB4 then [0x20, 0x301]
  else if n = 0xB5 then [0x3BC]
  else if n = 0xB8 then [0x20, 0x327]
  else if n = 0xB9 then [0x31]
  else if n = 0xBC then [0x31, 0x2044, 0x34]
  else if n = 0xBD then [0x31, 0x2044, 0x32]
  else if n = 0xBE then [0x33, 0x2044, 0x34]
  else [n]

/-- A code point encodable in ISO-8859-1 (and in the identical `latin1`
codec): exactly the first 256 code points. -/
def latin1_encodable (n : Nat) : Bool :=
  n ≤ 0xFF

/-- The 27 code points that the cp1252 codec maps into the byte range
0x80–0x9F. -/
def cp1252_extras : List Nat :=
  [0x20AC, 0x201A, 0x0192, 0x201E, 0x2026, 0x2020, 0x2021, 0x02C6,
   0x2030, 0x0160, 0x2039, 0x0152, 0x017D, 0x2018, 0x2019, 0x201C,
   0x201D, 0x2022, 0x2013, 0x2014, 0x02DC, 0x2122, 0x0161, 0x203A,
   0x0153, 0x017E, 0x0178]

/-- A code point encodable in cp1252: ASCII, the Latin-1 range 0xA0–0xFF
(the C1 controls 0x80–0x9F are unmapped in cp1252), or one of the 27
characters cp1252 places in the 0x80–0x9F byte range. -/
def cp1252_encodable (n : Nat) : Bool :=
  n ≤ 0x7F || (0xA0 ≤ n && n ≤ 0xFF) || cp1252_extras.contains n

/-- One `unicodedata.normalize('NFKD', s).encode(codec, 'ignore').decode(codec)`
pass: NFKD-decompose every character, then silently drop the characters the
codec cannot encode. -/
def encode_pass (enc : Nat → Bool) (s : List Nat) : List Nat :=
  ((s.map nfkd).flatten).filter enc

/-- `convert_unicode` (create_initial_unionlist.py lines 23–35): three
NFKD-plus-re-encoding passes, through iso-8859-1, latin1 (the same repertoire
under another name) and cp1252, each with `errors='ignore'`. -/
def convert_unicode (s : List Nat) : List Nat :=
  encode_pass cp1252_encodable
    (encode_pass latin1_encodable (encode_pass latin1_encodable s))

/-- Python `str.isspace` on one code point (the set `str.strip` removes). -/
def py_is_space (n : Nat) : Bool :=
  (0x9 ≤ n && n ≤ 0xD) || n == 0x20 || (0x1C ≤ n && n ≤ 0x1F) ||
  n == 0x85 || n == 0xA0 || n == 0x1680 ||
  (0x2000 ≤ n && n ≤ 0x200A) || n == 0x2028 || n == 0x2029 ||
  n == 0x202F || n == 0x205F || n == 0x3000

/-- Python `str.strip()`: drop leading and trailing whitespace. -/
def py_strip (s : List Nat) : List Nat :=
  (((s.dropWhile py_is_space).reverse).dropWhile py_is_space).reverse

/-- Python `str.lower` on one code point, restricted to the Latin-1 range
the normalizer produces: ASCII upper case and the Latin-1 upper-case letters
U+00C0–U+00DE (excluding the multiplication sign U+00D7) map 32 code points
up; everything else is unchanged. -/
def py_lower_char (n : Nat) : Nat :=
  if 0x41 ≤ n ∧ n ≤ 0x5A then n + 32
  else if (0xC0 ≤ n ∧ n ≤ 0xDE) ∧ n ≠ 0xD7 then n + 32
  else n

/-- Python `str.lower()` character by character. -/
def py_lower (s : List Nat) : List Nat :=
  s.map py_lower_char

/-- `str.replace(r'\|', '')` as it behaves on the Retraction Watch DOI column
(create_initial_unionlist.py line 100): pandas ≥ 2.0 defaults to
`regex=False`, so the pattern is the literal two-character substring
backslash `0x5C` followed by pipe `0x7C`, removed wherever it occurs. -/
def remove_backslash_pipe : List Nat → List Nat
  | [] => []
  | [c] => [c]
  | a :: b :: rest =>
    if a = 0x5C ∧ b = 0x7C then remove_backslash_pipe rest
    else a :: remove_backslash_pipe (b :: rest)

/-- The PubMed DOI normalization pipeline (create_initial_unionlist.py
line 55): `str.lower()`, then `str.strip()`, then `convert_unicode`. -/
def clean_pubmed_doi (s : List Nat) : List Nat :=
  convert_unicode (py_strip (py_lower s))

/-- The Retraction Watch DOI normalization pipeline
(create_initial_unionlist.py lines 100–101): the literal `str.replace`
above, then `str.lower()`, `str.strip()` and `convert_unicode`. -/
def clean_retraction_watch_doi (s : List Nat) : List Nat :=
  convert_unicode (py_strip (py_lower (remove_backslash_pipe s)))

/-! ### Source partitioner and intra-source deduplicator
(`check_individual_dataset_for_duplicates`, create_initial_unionlist.py
lines 106–169) -/

/-- One row of a cleaned source DataFrame, with the columns the
deduplication step touches.  `DOI` is `none` when the cell is missing
(NaN); a present cell holds the already-normalized identifier string. -/
structure SourceRecord where
  DOI : Option String
  Year : Int
  PubMedID : String
deriving DecidableEq

/-- `dataset['DOI'].str.startswith('10.', na=False)`: a missing value fails
the test, a present string passes exactly when it starts with `10.`. -/
def valid_doi : Option String → Bool
  | none => false
  | some s => "10.".data.isPrefixOf s.data

/-- Records whose identifier passes the validity test (line 122). -/
def records_with_DOI_has_dup (dataset : List SourceRecord) : List SourceRecord :=
  dataset.filter (fun r => valid_doi r.DOI)

/-- Records whose identifier fails the validity test (line 153). -/
def records_without_DOI (dataset : List SourceRecord) : List SourceRecord :=
  dataset.filter (fun r => !(valid_doi r.DOI))

/-- `drop_duplicates(subset=['DOI'], keep='first')`, written with an
accumulator of already-seen keys: a row is kept exactly when its key has not
occurred earlier. -/
def drop_dup_first_aux (seen : List (Option String)) : List SourceRecord → List SourceRecord
  | [] => []
  | r :: rest =>
    if r.DOI ∈ seen then drop_dup_first_aux seen rest
    else r :: drop_dup_first_aux (r.DOI :: seen) rest

/-- Rows `duplicated(subset=['DOI'], keep='first')` marks: exactly the rows
whose key occurred earlier, the complement of `drop_dup_first_aux`. -/
def duplicated_first_aux (seen : List (Option String)) : List SourceRecord → List SourceRecord
  | [] => []
  | r :: rest =>
    if r.DOI ∈ seen then r :: duplicated_first_aux seen rest
    else duplicated_first_aux (r.DOI :: seen) rest

/-- `drop_duplicates(subset=['DOI'], keep='first')`. -/
def drop_duplicates_keep_first (l : List SourceRecord) : List SourceRecord :=
  drop_dup_first_aux [] l

/-- Rows kept by `duplicated(subset=['DOI'], keep='first')` masking. -/
def duplicated_keep_first (l : List SourceRecord) : List SourceRecord :=
  duplicated_first_aux [] l

/-- `drop_duplicates(subset=['DOI'], keep='last')`: the last occurrence of
each key survives, at its original position. -/
def drop_duplicates_keep_last (l : List SourceRecord) : List SourceRecord :=
  (drop_dup_first_aux [] l.reverse).reverse

/-- Rows kept by `duplicated(subset=['DOI'], keep='last')` masking. -/
def duplicated_keep_last (l : List SourceRecord) : List SourceRecord :=
  (duplicated_first_aux [] l.reverse).reverse

/-- Rows kept by `duplicated(subset=['DOI'], keep=False)` masking: every
member of every duplicate group (line 136). -/
def duplicated_keep_false (l : List SourceRecord) : List SourceRecord :=
  l.filter (fun r => 2 ≤ l.countP (fun x => x.DOI == r.DOI))

/-- The condition `df_name == 'pubmed'` of lines 127 and 142.  In the
source, `df_name` is the *list* of global names bound to the dataset
(line 116), and in Python a list never compares equal to a string, so the
condition is `False` for every call (moreover the cleaned frames are local
variables of `main`, so the list is empty). -/
def df_name_eq_pubmed : Bool := false

/-- The value `check_individual_dataset_for_duplicates` returns when its
count reconciliation succeeds: the four counts and the four row groups of
lines 158–165. -/
structure DedupResult where
  total : Nat
  n_with_DOI : Nat
  n_without_DOI : Nat
  n_dup_one_copy : Nat
  records_with_DOI : List SourceRecord
  records_without_DOI : List SourceRecord
  duplicate_records_one_copy : List SourceRecord
  duplicate_records_all : List SourceRecord
deriving DecidableEq

/-- `check_individual_dataset_for_duplicates` (lines 106–169): partition by
identifier validity, deduplicate the valid part (the `keep='last'` branch is
dead because `df_name_eq_pubmed` is always false), collect the duplicate
side-lists, and return the groups when the counts reconcile.  When the
count check of line 157 fails the Python function falls off the `if` and
returns `None`, modelled as `none`. -/
def check_individual_dataset_for_duplicates (dataset : List SourceRecord) :
    Option DedupResult :=
  let with_dup := records_with_DOI_has_dup dataset
  let kept :=
    if df_name_eq_pubmed then drop_duplicates_keep_last with_dup
    else drop_duplicates_keep_first with_dup
  let dup_all := duplicated_keep_false with_dup
  let dup_one :=
    if df_name_eq_pubmed then duplicated_keep_last with_dup
    else duplicated_keep_first with_dup
  let without := records_without_DOI dataset
  if dataset.length = kept.length + without.length + dup_one.length then
    some ⟨dataset.length, kept.length, without.length, dup_one.length,
          kept, without, dup_one, dup_all⟩
  else
    none

/-! ### Cross-source fuser (`create_union_list`, create_initial_unionlist.py
lines 313–363) -/

/-- One row of a deduplicated per-source `recordswithdoi` file as
`create_union_list` reads it back: the descriptive columns, the year (an
integer after cleaning), and the PubMed ID column, which the CSV round trip
turns into a nullable number (`none` for an empty cell). -/
structure CleanRecord where
  DOI : String
  Author : String
  Title : String
  Year : Int
  Journal : String
  PubMedID : Option Nat
deriving DecidableEq

/-- One row of the fused union list (the frame built at lines 325–361). -/
structure FusedRecord where
  DOI : String
  Author : String
  Title : String
  Year : Int
  Journal : String
  PubMedID : String
  Indexed_In : String
deriving DecidableEq

/-- One row of `pd.merge(pubmed, retraction_watch, on='DOI', how='outer',
indicator=True)`, tagged by the `_merge` indicator column. -/
inductive PmMerge where
  | both : CleanRecord → CleanRecord → PmMerge
  | left_only : CleanRecord → PmMerge
  | right_only : CleanRecord → PmMerge
deriving DecidableEq

/-- The merge rows one left row contributes: paired with each right row
sharing its key, or emitted alone when unmatched. -/
def pm_chunk (retraction_watch : List CleanRecord) (p : CleanRecord) : List PmMerge :=
  let ms := retraction_watch.filter (fun b => b.DOI == p.DOI)
  if ms.isEmpty then [PmMerge.left_only p] else ms.map (PmMerge.both p)

/-- The outer-merge row list: every left row's contribution in left order,
followed by the unmatched right rows. -/
def pm_merge_rows (pubmed retraction_watch : List CleanRecord) : List PmMerge :=
  pubmed.flatMap (pm_chunk retraction_watch)
  ++ (retraction_watch.filter
        (fun b => pubmed.all (fun p => !(p.DOI == b.DOI)))).map PmMerge.right_only

/-- The post-processing of the fused PubMed ID column (line 361):
`fillna(0).astype(int).replace(0, '').astype(str)` — a missing or zero ID
becomes the empty string, any other ID its decimal digits. -/
def pmid_string : Option Nat → String
  | none => ""
  | some 0 => ""
  | some n => toString n

/-- One iteration of the fusion loop (lines 329–354): on `both` and
`left_only` rows every descriptive field comes from the PubMed (`_x`) side;
on `right_only` rows from the Retraction Watch (`_y`) side; `Indexed_In`
records the join outcome. -/
def fused_row : PmMerge → FusedRecord
  | PmMerge.both p _ =>
    ⟨p.DOI, p.Author, p.Title, p.Year, p.Journal, pmid_string p.PubMedID,
     "Retraction Watch; PubMed"⟩
  | PmMerge.left_only p =>
    ⟨p.DOI, p.Author, p.Title, p.Year, p.Journal, pmid_string p.PubMedID,
     "PubMed"⟩
  | PmMerge.right_only b =>
    ⟨b.DOI, b.Author, b.Title, b.Year, b.Journal, pmid_string b.PubMedID,
     "Retraction Watch"⟩

/-- `create_union_list` on already-loaded deduplicated inputs: the outer
merge followed by the row-by-row fusion loop and the year/PubMed-ID
coercions (the year is an integer by construction here, `Year : Int`). -/
def create_union_list (pubmed retraction_watch : List CleanRecord) :
    List FusedRecord :=
  (pm_merge_rows pubmed retraction_watch).map fused_row

/-! ### Coverage annotator (`merge_dataframes`,
python_scripts/f_update_unionlist_with_coverage.py lines 44–95) -/

/-- One row of the coverage tables: the union-list columns plus
`Covered_In`.  Used both for the `pubmed_coverednotindexed` input (whose
rows are union-list rows that `pubmed_coverage_query.py` tagged with
`Covered_In`) and for the annotated output rows the merge loop builds. -/
structure CoveredRecord where
  DOI : String
  Author : String
  Title : String
  Year : Int
  Journal : String
  PubMedID : String
  Indexed_In : String
  Covered_In : String
deriving DecidableEq

/-- One row of `pd.merge(unionlist, pubmed_covered_not_indexed, on='DOI',
how='outer', indicator=True)`, tagged by the `_merge` indicator column. -/
inductive CovMerge where
  | both : FusedRecord → CoveredRecord → CovMerge
  | left_only : FusedRecord → CovMerge
  | right_only : CoveredRecord → CovMerge
deriving DecidableEq

/-- The outer-merge row list for the coverage merge, analogous to
`pm_merge_rows`. -/
def cov_merge_rows (unionlist : List FusedRecord)
    (covered_not_indexed : List CoveredRecord) : List CovMerge :=
  (unionlist.flatMap (fun u =>
    let ms := covered_not_indexed.filter (fun c => c.DOI == u.DOI)
    if ms.isEmpty then [CovMerge.left_only u] else ms.map (CovMerge.both u)))
  ++ (covered_not_indexed.filter
        (fun c => unionlist.all (fun u => !(u.DOI == c.DOI)))).map CovMerge.right_only

/-- The `new_row` built for a `both` merge row (lines 71–81): every field
from the union-list (`_x`) side, `Covered_In` from the coverage-signal
side. -/
def new_row_both (u : FusedRecord) (c : CoveredRecord) : CoveredRecord :=
  ⟨u.DOI, u.Author, u.Title, u.Year, u.Journal, u.PubMedID, u.Indexed_In,
   c.Covered_In⟩

/-- The `new_row` built for a `left_only` merge row (lines 82–90):
`Covered_In` defaults to `Indexed_In` ("Indexing implies coverage."). -/
def new_row_left (u : FusedRecord) : CoveredRecord :=
  ⟨u.DOI, u.Author, u.Title, u.Year, u.Journal, u.PubMedID, u.Indexed_In,
   u.Indexed_In⟩

/-- The fusion loop of `merge_dataframes` (lines 70–92).  The loop has no
`right_only` branch, so on a `right_only` merge row the Python variable
`new_row` still holds the value of the *previous* iteration and that stale
row is appended again; when the very first row is `right_only`, `new_row`
is unbound and the loop raises `UnboundLocalError`, modelled as `none`.
The first argument carries the current value of `new_row`. -/
def build_rows : Option CoveredRecord → List CovMerge → Option (List CoveredRecord)
  | _, [] => some []
  | _, CovMerge.both u c :: rest =>
    (build_rows (some (new_row_both u c)) rest).map (new_row_both u c :: ·)
  | _, CovMerge.left_only u :: rest =>
    (build_rows (some (new_row_left u)) rest).map (new_row_left u :: ·)
  | stale, CovMerge.right_only _ :: rest =>
    match stale with
    | none => none
    | some r => (build_rows (some r) rest).map (r :: ·)

/-- `merge_dataframes` on already-loaded inputs: the outer merge followed by
the annotating loop. -/
def merge_dataframes (unionlist : List FusedRecord)
    (covered_not_indexed : List CoveredRecord) : Option (List CoveredRecord) :=
  build_rows none (cov_merge_rows unionlist covered_not_indexed)

/-! ### Label sets
The `Indexed_In` / `Covered_In` columns hold `"; "`-separated label lists;
the spec's invariants speak about them as sets of labels. -/

/-- Split a character list at every `;`. -/
def split_semi : List Char → List (List Char)
  | [] => [[]]
  | c :: rest =>
    let r := split_semi rest
    if c = ';' then [] :: r
    else
      match r with
      | [] => [[c]]
      | g :: gs => (c :: g) :: gs

/-- Drop leading and trailing spaces of a label fragment. -/
def strip_spaces (l : List Char) : List Char :=
  (((l.dropWhile (fun c => c == ' ')).reverse).dropWhile (fun c => c == ' ')).reverse

/-- The set of labels of a `"; "`-separated label column value. -/
def label_set (s : String) : List String :=
  (split_semi s.data).map (fun g => String.mk (strip_spaces g))

/-! ### Example data used by the closed theorems -/

def pm_1900 : SourceRecord := ⟨some "10.1/x", 1900, "26511294"⟩

def pm_2016 : SourceRecord := ⟨some "10.1/x", 2016, "28202934"⟩

/-- A PubMed-like dataset holding the identifier `10.1/x` twice, the
1900 row earlier in the file and the 2016 row later. -/
def pubmed_dup_dataset : List SourceRecord := [pm_1900, pm_2016]

def ds_par : List SourceRecord :=
  [⟨some "10.1/a", 2000, "1"⟩, ⟨none, 2001, "2"⟩, ⟨some "abc", 2002, "3"⟩]

def u_c7 : FusedRecord :=
  ⟨"10.1/a", "A. Author", "A title", 2001, "J", "111", "Retraction Watch"⟩

def ul_c7 : List FusedRecord := [u_c7]

/-- A coverage-signal table whose only identifier, `10.9/z`, is absent from
`ul_c7`. -/
def cni_c7 : List CoveredRecord :=
  [⟨"10.9/z", "B. Author", "B title", 2002, "K", "222", "Retraction Watch",
    "Retraction Watch; PubMed"⟩]

def u_cov : FusedRecord :=
  ⟨"10.2/b", "C. Author", "C title", 2003, "L", "333", "Retraction Watch"⟩

def c_cov : CoveredRecord :=
  ⟨"10.2/b", "C. Author", "C title", 2003, "L", "333", "Retraction Watch",
   "Retraction Watch; PubMed"⟩

def A_fuse : List CleanRecord :=
  [⟨"10.3/c", "P. Author", "P title", 2005, "PJ", some 77⟩]

def B_fuse : List CleanRecord :=
  [⟨"10.3/c", "R. Author", "R title", 1999, "RJ", none⟩,
   ⟨"10.4/d", "S. Author", "S title", 2000, "SJ", some 0⟩]

/-! ### Sanity checks on concrete inputs -/

example : clean_pubmed_doi (str2cp "10.1105/tpc.010357") = str2cp "10.1105/tpc.010357" := by decide

example : clean_pubmed_doi (str2cp "¨") = str2cp " " := by decide

example : clean_pubmed_doi (clean_pubmed_doi (str2cp "¨")) = [] := by decide

example :
    clean_retraction_watch_doi (str2cp "10.1038/embor.2009.88 |") =
      str2cp "10.1038/embor.2009.88 |" := by decide

example : label_set "Retraction Watch; PubMed" = ["Retraction Watch", "PubMed"] := by decide

example : label_set "PubMed" = ["PubMed"] := by decide

/-! ### General lemmas about the partition and deduplication steps -/

theorem length_filter_split (p : SourceRecord → Bool) (l : List SourceRecord) :
    (l.filter p).length + (l.filter (fun r => !(p r))).length = l.length := by
  induction l with
  | nil => rfl
  | cons r rest ih => cases hp : p r <;> simp [List.filter_cons, hp] <;> omega

theorem dedup_aux_length_split (l : List SourceRecord) :
    ∀ seen, (drop_dup_first_aux seen l).length +
      (duplicated_first_aux seen l).length = l.length := by
  induction l with
  | nil => intro seen; rfl
  | cons r rest ih =>
    intro seen
    by_cases h : r.DOI ∈ seen
    · simp [drop_dup_first_aux, duplicated_first_aux, h]
      have := ih seen
      omega
    · simp [drop_dup_first_aux, duplicated_first_aux, h]
      have := ih (r.DOI :: seen)
      omega

/-- The count reconciliation of line 157 can never fail: the survivors, the
records without identifier and the dropped duplicates always add up to the
input total, so `check_individual_dataset_for_duplicates` always returns its
row groups and its silent fall-through branch is unreachable. -/
theorem dedup_counts_always_reconcile (dataset : List SourceRecord) :
    (check_individual_dataset_for_duplicates dataset).isSome := by
  have h1 := length_filter_split (fun r => valid_doi r.DOI) dataset
  have h2 := dedup_aux_length_split (records_with_DOI_has_dup dataset) []
  simp only [check_individual_dataset_for_duplicates, df_name_eq_pubmed,
    if_false, Bool.false_eq_true]
  rw [if_pos]
  · rfl
  · simp only [records_with_DOI_has_dup, records_without_DOI,
      drop_duplicates_keep_first, duplicated_keep_first] at *
    omega

/-! ### Claim theorems -/

/-- C1: the claimed keep-last policy for the PubMed source does not hold on
the code.  Because the `df_name == 'pubmed'` comparison of lines 127/142
compares a list to a string and is therefore always false, the survivor of
the duplicate group `10.1/x` in a PubMed dataset with the 1900 row first and
the 2016 row later is the *1900* row (keep-first), while the keep-last
deduplication the code's own comments call for would keep the 2016 row. -/
theorem pubmed_dedup_keeps_first_not_last :
    (check_individual_dataset_for_duplicates pubmed_dup_dataset).map
        DedupResult.records_with_DOI = some [pm_1900] ∧
      drop_duplicates_keep_last (records_with_DOI_has_dup pubmed_dup_dataset) =
        [pm_2016] := by decide

/-- C5: the partition into records with a valid identifier and records
without one is exhaustive (the two part sizes sum to the input size) and
disjoint (no record is in both parts). -/
theorem partition_disjoint_exhaustive (dataset : List SourceRecord) :
    (records_with_DOI_has_dup dataset).length +
        (records_without_DOI dataset).length = dataset.length ∧
      ∀ r, r ∈ records_with_DOI_has_dup dataset →
        r ∉ records_without_DOI dataset := by
  refine ⟨length_filter_split (fun r => valid_doi r.DOI) dataset, ?_⟩
  intro r hin hout
  have h1 := (List.mem_filter.mp hin).2
  have h2 := (List.mem_filter.mp hout).2
  simp at h1 h2
  exact absurd h1 (by simp [h2])

/-- Witness for C5 at a concrete dataset holding a valid identifier, a
missing identifier and a malformed identifier. -/
theorem partition_disjoint_exhaustive_witness :
    (records_with_DOI_has_dup ds_par).length +
        (records_without_DOI ds_par).length = ds_par.length ∧
      (⟨some "10.1/a", 2000, "1"⟩ : SourceRecord) ∉ records_without_DOI ds_par :=
  ⟨(partition_disjoint_exhaustive ds_par).1,
   (partition_disjoint_exhaustive ds_par).2 _ (by decide)⟩

/-- C10: a record whose identifier cell is missing fails the
`startswith('10.', na=False)` validity test and is routed to the
without-identifier partition, and the disjoint-and-exhaustive count identity
holds on such inputs as well. -/
theorem missing_identifier_routed_to_without (dataset : List SourceRecord)
    (r : SourceRecord) (hr : r ∈ dataset) (hmiss : r.DOI = none) :
    valid_doi r.DOI = false ∧
      r ∈ records_without_DOI dataset ∧
      r ∉ records_with_DOI_has_dup dataset ∧
      (records_with_DOI_has_dup dataset).length +
        (records_without_DOI dataset).length = dataset.length := by
  have hv : valid_doi r.DOI = false := by rw [hmiss]; rfl
  refine ⟨hv, ?_, ?_, length_filter_split (fun r => valid_doi r.DOI) dataset⟩
  · exact List.mem_filter.mpr ⟨hr, by simp [hv]⟩
  · intro hin
    have := (List.mem_filter.mp hin).2
    simp [hv] at this

/-- Witness for C10 at a concrete dataset containing a missing-identifier
record. -/
theorem missing_identifier_routed_to_without_witness :
    valid_doi (none : Option String) = false ∧
      (⟨none, 2001, "2"⟩ : SourceRecord) ∈ records_without_DOI ds_par ∧
      (⟨none, 2001, "2"⟩ : SourceRecord) ∉ records_with_DOI_has_dup ds_par ∧
      (records_with_DOI_has_dup ds_par).length +
        (records_without_DOI ds_par).length = ds_par.length :=
  missing_identifier_routed_to_without ds_par ⟨none, 2001, "2"⟩ (by decide) rfl

/-- C8: the claimed removal of the stray `|` delimiter does not happen on
the code.  Under pandas ≥ 2.0 `str.replace` defaults to `regex=False`, so
line 100 removes the literal two-character substring `\|` — which the
identifier does not contain — and `"10.1038/embor.2009.88 |"` normalizes to
itself, not to `"10.1038/embor.2009.88"` as the claim (and the code's own
comment) states. -/
theorem stray_pipe_not_removed :
    clean_retraction_watch_doi (str2cp "10.1038/embor.2009.88 |") =
        str2cp "10.1038/embor.2009.88 |" ∧
      clean_retraction_watch_doi (str2cp "10.1038/embor.2009.88 |") ≠
        str2cp "10.1038/embor.2009.88" := by decide

/-- C9 counterexample: normalization is not idempotent.  NFKD decomposes
`¨` (U+00A8) to a space followed by a combining diaeresis, the re-encoding
drops the combining mark, and the space survives because `str.strip` already
ran, so `normalize("¨") = " "` while a second pass yields `""`. -/
theorem normalize_not_idempotent :
    clean_pubmed_doi (clean_pubmed_doi (str2cp "¨")) ≠
      clean_pubmed_doi (str2cp "¨") := by decide

/-! ### Lemmas about the identifier normalizer -/

theorem nfkd_stable_outside (n : Nat) (h : n < 0xA8 ∨ 0xBE < n) :
    nfkd n = [n] := by
  unfold nfkd
  repeat rw [if_neg (by omega)]

set_option maxRecDepth 8192 in
theorem nfkd_bounded_stable : ∀ d < 0x100, ∀ c ∈ nfkd d, nfkd c = [c] := by
  decide

/-- Every code point an NFKD decomposition produces is itself NFKD-stable
(NFKD is a normal form). -/
theorem nfkd_image_stable (d c : Nat) (h : c ∈ nfkd d) : nfkd c = [c] := by
  by_cases hd : d < 0x100
  · exact nfkd_bounded_stable d hd c h
  · rw [nfkd_stable_outside d (by omega)] at h
    simp only [List.mem_cons, List.not_mem_nil, or_false] at h
    subst h
    exact nfkd_stable_outside _ (by omega)

set_option maxRecDepth 8192 in
theorem nfkd_bounded_low :
    ∀ d < 0x100, ∀ c ∈ nfkd d,
      c = d ∨ c ≤ 0xFF ∨ cp1252_encodable c = false := by
  decide

/-- A decomposition of a Latin-1 code point never lands in the cp1252-only
high range: it is Latin-1 again, or a code point cp1252 cannot encode, or
the original code point itself. -/
theorem nfkd_image_low (d c : Nat) (h : c ∈ nfkd d) :
    c = d ∨ c ≤ 0xFF ∨ cp1252_encodable c = false := by
  by_cases hd : d < 0x100
  · exact nfkd_bounded_low d hd c h
  · rw [nfkd_stable_outside d (by omega)] at h
    simp only [List.mem_cons, List.not_mem_nil, or_false] at h
    exact Or.inl h

theorem mem_encode_pass {enc : Nat → Bool} {s : List Nat} {c : Nat}
    (h : c ∈ encode_pass enc s) :
    enc c = true ∧ ∃ d ∈ s, c ∈ nfkd d := by
  unfold encode_pass at h
  have h1 := List.mem_filter.mp h
  refine ⟨h1.2, ?_⟩
  obtain ⟨l, hl, hcl⟩ := List.mem_flatten.mp h1.1
  obtain ⟨d, hd, rfl⟩ := List.mem_map.mp hl
  exact ⟨d, hd, hcl⟩

/-- An encoding pass is the identity on a string of NFKD-stable, encodable
code points. -/
theorem encode_pass_fixed (enc : Nat → Bool) (s : List Nat)
    (h : ∀ c ∈ s, nfkd c = [c] ∧ enc c = true) : encode_pass enc s = s := by
  induction s with
  | nil => rfl
  | cons c rest ih =>
    have hc := h c (List.mem_cons_self _ _)
    have hrest := ih (fun c' hc' => h c' (List.mem_cons_of_mem _ hc'))
    unfold encode_pass at hrest ⊢
    rw [List.map_cons, List.flatten_cons, List.filter_append, hrest, hc.1]
    simp [hc.2]

/-- Every code point `convert_unicode` outputs is NFKD-stable and encodable
in both repertoires the three passes filter through. -/
theorem convert_unicode_output_good (s : List Nat) (c : Nat)
    (h : c ∈ convert_unicode s) :
    nfkd c = [c] ∧ latin1_encodable c = true ∧ cp1252_encodable c = true := by
  unfold convert_unicode at h
  obtain ⟨hcp, d, hd, hcd⟩ := mem_encode_pass h
  obtain ⟨hd_latin, _, _, _⟩ := mem_encode_pass hd
  refine ⟨nfkd_image_stable d c hcd, ?_, hcp⟩
  rcases nfkd_image_low d c hcd with rfl | hle | hfalse
  · exact hd_latin
  · simp only [latin1_encodable, decide_eq_true_eq]
    omega
  · rw [hcp] at hfalse
    cases hfalse

theorem py_lower_char_good (c : Nat) (hst : nfkd c = [c]) (hle : c ≤ 0xFF) :
    nfkd (py_lower_char c) = [py_lower_char c] ∧
      py_lower_char c ≤ 0xFF ∧
      (cp1252_encodable c = true → cp1252_encodable (py_lower_char c) = true) := by
  unfold py_lower_char
  split_ifs with hu1 hu2
  · refine ⟨nfkd_stable_outside _ (by omega), by omega, fun _ => ?_⟩
    simp only [cp1252_encodable, Bool.or_eq_true, decide_eq_true_eq,
      Bool.and_eq_true]
    omega
  · refine ⟨nfkd_stable_outside _ (by omega), by omega, fun _ => ?_⟩
    simp only [cp1252_encodable, Bool.or_eq_true, decide_eq_true_eq,
      Bool.and_eq_true]
    omega
  · exact ⟨hst, hle, fun h => h⟩

theorem mem_of_mem_py_strip {s : List Nat} {c : Nat} (h : c ∈ py_strip s) :
    c ∈ s := by
  unfold py_strip at h
  rw [List.mem_reverse] at h
  have h1 := (List.dropWhile_sublist _).subset h
  rw [List.mem_reverse] at h1
  exact (List.dropWhile_sublist _).subset h1

/-! ### Lemmas about the cross-source fusion -/

theorem pmid_string_cases (o : Option Nat) :
    pmid_string o = "" ∨ ∃ n : Nat, n ≠ 0 ∧ pmid_string o = toString n := by
  match o with
  | none => exact Or.inl rfl
  | some 0 => exact Or.inl rfl
  | some (k + 1) => exact Or.inr ⟨k + 1, Nat.succ_ne_zero k, rfl⟩

theorem nodup_filter_key (B : List CleanRecord)
    (hB : (B.map CleanRecord.DOI).Nodup) (d : String) :
    B.filter (fun b => b.DOI == d) = [] ∨
      ∃ b, b ∈ B ∧ b.DOI = d ∧ B.filter (fun b => b.DOI == d) = [b] := by
  induction B with
  | nil => exact Or.inl rfl
  | cons b rest ih =>
    rw [List.map_cons, List.nodup_cons] at hB
    obtain ⟨hhead, htail⟩ := hB
    cases hb : b.DOI == d with
    | false =>
      rw [List.filter_cons_of_neg (by simp [hb])]
      rcases ih htail with h | ⟨b', hb', hd', hf'⟩
      · exact Or.inl h
      · exact Or.inr ⟨b', List.mem_cons_of_mem _ hb', hd', hf'⟩
    | true =>
      have hbd : b.DOI = d := by simpa using hb
      rw [List.filter_cons_of_pos (by simp [hb])]
      have hrest : rest.filter (fun b => b.DOI == d) = [] := by
        apply List.filter_eq_nil_iff.mpr
        intro x hx hxd
        exact hhead (by
          rw [show b.DOI = x.DOI from by rw [hbd]; symm; simpa using hxd]
          exact List.mem_map_of_mem _ hx)
      rw [hrest]
      exact Or.inr ⟨b, List.mem_cons_self _ _, hbd, rfl⟩

theorem pm_chunk_doi (B : List CleanRecord)
    (hB : (B.map CleanRecord.DOI).Nodup) (p : CleanRecord) :
    (pm_chunk B p).map (fun m => (fused_row m).DOI) = [p.DOI] := by
  rcases nodup_filter_key B hB p.DOI with h | ⟨b, _, _, h⟩ <;>
    simp [pm_chunk, h, fused_row]

theorem pm_left_dois (A B : List CleanRecord)
    (hB : (B.map CleanRecord.DOI).Nodup) :
    (A.flatMap (pm_chunk B)).map (fun m => (fused_row m).DOI) =
      A.map CleanRecord.DOI := by
  induction A with
  | nil => rfl
  | cons a rest ih =>
    rw [List.flatMap_cons, List.map_append, pm_chunk_doi B hB a, ih,
      List.map_cons]
    rfl

theorem create_union_list_dois (A B : List CleanRecord)
    (hB : (B.map CleanRecord.DOI).Nodup) :
    (create_union_list A B).map FusedRecord.DOI =
      A.map CleanRecord.DOI ++
        (B.filter (fun b => A.all (fun p => !(p.DOI == b.DOI)))).map
          CleanRecord.DOI := by
  unfold create_union_list pm_merge_rows
  simp only [List.map_append, List.map_map]
  simp only [Function.comp_def]
  rw [pm_left_dois A B hB]
  congr 1

/-! ### Lemmas about the coverage merge -/

theorem cov_merge_mem_both {ul : List FusedRecord} {cni : List CoveredRecord}
    {u : FusedRecord} {c : CoveredRecord}
    (h : CovMerge.both u c ∈ cov_merge_rows ul cni) :
    u ∈ ul ∧ c ∈ cni ∧ c.DOI = u.DOI := by
  rcases List.mem_append.mp h with h | h
  · obtain ⟨u', hu', hm⟩ := List.mem_flatMap.mp h
    by_cases he : (cni.filter (fun c => c.DOI == u'.DOI)).isEmpty
    · simp [he] at hm
    · simp [he] at hm
      obtain ⟨⟨hc, hdoi⟩, rfl⟩ := hm
      exact ⟨hu', hc, hdoi⟩
  · obtain ⟨c', _, hm⟩ := List.mem_map.mp h
    cases hm

theorem cov_merge_mem_left {ul : List FusedRecord} {cni : List CoveredRecord}
    {u : FusedRecord}
    (h : CovMerge.left_only u ∈ cov_merge_rows ul cni) :
    u ∈ ul ∧ cni.filter (fun c => c.DOI == u.DOI) = [] := by
  rcases List.mem_append.mp h with h | h
  · obtain ⟨u', hu', hm⟩ := List.mem_flatMap.mp h
    by_cases he : (cni.filter (fun c => c.DOI == u'.DOI)).isEmpty
    · simp [he] at hm
      subst hm
      exact ⟨hu', List.isEmpty_iff.mp he⟩
    · simp [he] at hm
  · obtain ⟨c', _, hm⟩ := List.mem_map.mp h
    cases hm

theorem cov_merge_has_both {ul : List FusedRecord} {cni : List CoveredRecord}
    {u : FusedRecord} {c : CoveredRecord}
    (hu : u ∈ ul) (hc : c ∈ cni) (hdoi : c.DOI = u.DOI) :
    CovMerge.both u c ∈ cov_merge_rows ul cni := by
  apply List.mem_append_left
  apply List.mem_flatMap.mpr
  refine ⟨u, hu, ?_⟩
  have hcf : c ∈ cni.filter (fun c => c.DOI == u.DOI) :=
    List.mem_filter.mpr ⟨hc, by simpa using hdoi⟩
  have he : ¬ (cni.filter (fun c => c.DOI == u.DOI)).isEmpty := by
    intro h
    rw [List.isEmpty_iff.mp h] at hcf
    cases hcf
  simp only [he, if_false, Bool.false_eq_true]
  exact List.mem_map_of_mem _ hcf

theorem cov_merge_has_left {ul : List FusedRecord} {cni : List CoveredRecord}
    {u : FusedRecord}
    (hu : u ∈ ul) (hempty : cni.filter (fun c => c.DOI == u.DOI) = []) :
    CovMerge.left_only u ∈ cov_merge_rows ul cni := by
  apply List.mem_append_left
  apply List.mem_flatMap.mpr
  refine ⟨u, hu, ?_⟩
  simp [hempty]

/-- Soundness of the annotating loop: a property that holds of every row
built from a `both` or `left_only` merge row, and of the incoming value of
`new_row`, holds of every output row — including the stale duplicates the
missing `right_only` branch appends. -/
theorem build_rows_all (P : CoveredRecord → Prop) :
    ∀ (rows : List CovMerge) (stale : Option CoveredRecord)
      (out : List CoveredRecord),
      build_rows stale rows = some out →
      (∀ r, stale = some r → P r) →
      (∀ u c, CovMerge.both u c ∈ rows → P (new_row_both u c)) →
      (∀ u, CovMerge.left_only u ∈ rows → P (new_row_left u)) →
      ∀ r ∈ out, P r := by
  intro rows
  induction rows with
  | nil =>
    intro stale out hb _ _ _ r hr
    cases hb
    cases hr
  | cons m rest ih =>
    intro stale out hb hstale hboth hleft r hr
    cases m with
    | both u c =>
      simp only [build_rows] at hb
      obtain ⟨out', hout', rfl⟩ := Option.map_eq_some'.mp hb
      have hP : P (new_row_both u c) := hboth u c (List.mem_cons_self _ _)
      rcases List.mem_cons.mp hr with rfl | hr'
      · exact hP
      · exact ih (some (new_row_both u c)) out' hout'
          (fun r' h' => by cases h'; exact hP)
          (fun u' c' h' => hboth u' c' (List.mem_cons_of_mem _ h'))
          (fun u' h' => hleft u' (List.mem_cons_of_mem _ h')) r hr'
    | left_only u =>
      simp only [build_rows] at hb
      obtain ⟨out', hout', rfl⟩ := Option.map_eq_some'.mp hb
      have hP : P (new_row_left u) := hleft u (List.mem_cons_self _ _)
      rcases List.mem_cons.mp hr with rfl | hr'
      · exact hP
      · exact ih (some (new_row_left u)) out' hout'
          (fun r' h' => by cases h'; exact hP)
          (fun u' c' h' => hboth u' c' (List.mem_cons_of_mem _ h'))
          (fun u' h' => hleft u' (List.mem_cons_of_mem _ h')) r hr'
    | right_only c =>
      cases stale with
      | none => cases hb
      | some r0 =>
        simp only [build_rows] at hb
        obtain ⟨out', hout', rfl⟩ := Option.map_eq_some'.mp hb
        have hP : P r0 := hstale r0 rfl
        rcases List.mem_cons.mp hr with rfl | hr'
        · exact hP
        · exact ih (some r0) out' hout'
            (fun r' h' => by cases h'; exact hP)
            (fun u' c' h' => hboth u' c' (List.mem_cons_of_mem _ h'))
            (fun u' h' => hleft u' (List.mem_cons_of_mem _ h')) r hr'

/-- Every row built from a `both` or `left_only` merge row reaches the
output when the loop completes. -/
theorem build_rows_emits :
    ∀ (rows : List CovMerge) (stale : Option CoveredRecord)
      (out : List CoveredRecord),
      build_rows stale rows = some out →
      (∀ u c, CovMerge.both u c ∈ rows → new_row_both u c ∈ out) ∧
      (∀ u, CovMerge.left_only u ∈ rows → new_row_left u ∈ out) := by
  intro rows
  induction rows with
  | nil =>
    intro stale out hb
    constructor
    · intro u c h; cases h
    · intro u h; cases h
  | cons m rest ih =>
    intro stale out hb
    cases m with
    | both u0 c0 =>
      simp only [build_rows] at hb
      obtain ⟨out', hout', rfl⟩ := Option.map_eq_some'.mp hb
      have h' := ih _ out' hout'
      constructor
      · intro u c h
        rcases List.mem_cons.mp h with h | h
        · obtain ⟨h1, h2⟩ := CovMerge.both.inj h
          subst h1; subst h2
          exact List.mem_cons_self _ _
        · exact List.mem_cons_of_mem _ (h'.1 u c h)
      · intro u h
        rcases List.mem_cons.mp h with h | h
        · cases h
        · exact List.mem_cons_of_mem _ (h'.2 u h)
    | left_only u0 =>
      simp only [build_rows] at hb
      obtain ⟨out', hout', rfl⟩ := Option.map_eq_some'.mp hb
      have h' := ih _ out' hout'
      constructor
      · intro u c h
        rcases List.mem_cons.mp h with h | h
        · cases h
        · exact List.mem_cons_of_mem _ (h'.1 u c h)
      · intro u h
        rcases List.mem_cons.mp h with h | h
        · cases CovMerge.left_only.inj h
          exact List.mem_cons_self _ _
        · exact List.mem_cons_of_mem _ (h'.2 u h)
    | right_only c0 =>
      cases stale with
      | none => cases hb
      | some r0 =>
        simp only [build_rows] at hb
        obtain ⟨out', hout', rfl⟩ := Option.map_eq_some'.mp hb
        have h' := ih _ out' hout'
        constructor
        · intro u c h
          rcases List.mem_cons.mp h with h | h
          · cases h
          · exact List.mem_cons_of_mem _ (h'.1 u c h)
        · intro u h
          rcases List.mem_cons.mp h with h | h
          · cases h
          · exact List.mem_cons_of_mem _ (h'.2 u h)

/-- C2: under the pipeline's input shape — every coverage-signal row carries
the full label set `"Retraction Watch; PubMed"` (as `pubmed_coverage_query`
writes it) and every union-list row carries one of the three values
`create_union_list` emits — every record the coverage annotator outputs has
a `Covered_In` label set that contains every `Indexed_In` label. -/
theorem covered_in_superset_of_indexed_in (unionlist : List FusedRecord)
    (covered_not_indexed : List CoveredRecord) (out : List CoveredRecord)
    (hcov : ∀ c ∈ covered_not_indexed,
      c.Covered_In = "Retraction Watch; PubMed")
    (hidx : ∀ u ∈ unionlist,
      u.Indexed_In = "PubMed" ∨ u.Indexed_In = "Retraction Watch" ∨
        u.Indexed_In = "Retraction Watch; PubMed")
    (hout : merge_dataframes unionlist covered_not_indexed = some out) :
    ∀ r ∈ out, ∀ l ∈ label_set r.Indexed_In, l ∈ label_set r.Covered_In := by
  apply build_rows_all
    (P := fun r => ∀ l ∈ label_set r.Indexed_In, l ∈ label_set r.Covered_In)
    (cov_merge_rows unionlist covered_not_indexed) none out hout
  · intro r h
    cases h
  · intro u c hm
    obtain ⟨hu, hc, _⟩ := cov_merge_mem_both hm
    show ∀ l ∈ label_set u.Indexed_In, l ∈ label_set c.Covered_In
    rw [hcov c hc]
    rcases hidx u hu with h | h | h <;> rw [h] <;> decide
  · intro u _
    show ∀ l ∈ label_set u.Indexed_In, l ∈ label_set u.Indexed_In
    exact fun l hl => hl

/-- Witness for C2 at a one-row union list matched by a one-row coverage
signal. -/
theorem covered_in_superset_of_indexed_in_witness :
    "Retraction Watch" ∈ label_set (new_row_both u_cov c_cov).Covered_In :=
  covered_in_superset_of_indexed_in [u_cov] [c_cov] [new_row_both u_cov c_cov]
    (by decide) (by decide) (by decide) (new_row_both u_cov c_cov) (by decide)
    "Retraction Watch" (by decide)

/-- C3: row semantics of the coverage annotator.  For a union-list record
whose identifier also occurs in the coverage signal, every output row with
that identifier keeps all fused fields and gets `Covered_In` equal (as a
label set) to the union of the record's indexing labels and PubMed's label;
for a record whose identifier is absent from the coverage signal,
`Covered_In` is exactly `Indexed_In`.  The hypotheses are the pipeline's
input shape: unique identifiers in the fused list, the constant label set
`pubmed_coverage_query` writes, and matched records not already indexed in
PubMed (the coverage signal is drawn from rows whose `Indexed_In` lacks
`PubMed`). -/
theorem coverage_merge_row_semantics (unionlist : List FusedRecord)
    (covered_not_indexed : List CoveredRecord) (out : List CoveredRecord)
    (hnodup : (unionlist.map FusedRecord.DOI).Nodup)
    (hcov : ∀ c ∈ covered_not_indexed,
      c.Covered_In = "Retraction Watch; PubMed")
    (hmatched : ∀ u ∈ unionlist,
      (∃ c ∈ covered_not_indexed, c.DOI = u.DOI) →
        u.Indexed_In = "Retraction Watch" ∨
          u.Indexed_In = "Retraction Watch; PubMed")
    (hout : merge_dataframes unionlist covered_not_indexed = some out) :
    ∀ u ∈ unionlist,
      out.filter (fun r => r.DOI == u.DOI) ≠ [] ∧
      ∀ r ∈ out, r.DOI = u.DOI →
        r.Author = u.Author ∧ r.Title = u.Title ∧ r.Year = u.Year ∧
        r.Journal = u.Journal ∧ r.PubMedID = u.PubMedID ∧
        r.Indexed_In = u.Indexed_In ∧
        ((∃ c ∈ covered_not_indexed, c.DOI = u.DOI) →
          ∀ l, l ∈ label_set r.Covered_In ↔
            (l ∈ label_set u.Indexed_In ∨ l = "PubMed")) ∧
        ((¬ ∃ c ∈ covered_not_indexed, c.DOI = u.DOI) →
          r.Covered_In = u.Indexed_In) := by
  intro u hu
  constructor
  · by_cases hex : ∃ c ∈ covered_not_indexed, c.DOI = u.DOI
    · obtain ⟨c, hc, hdoi⟩ := hex
      have hmem := (build_rows_emits _ none out hout).1 u c
        (cov_merge_has_both hu hc hdoi)
      intro hfil
      have hin : new_row_both u c ∈ out.filter (fun r => r.DOI == u.DOI) :=
        List.mem_filter.mpr ⟨hmem, by simp [new_row_both]⟩
      rw [hfil] at hin
      cases hin
    · have hempty : covered_not_indexed.filter (fun c => c.DOI == u.DOI) = [] := by
        cases h' : covered_not_indexed.filter (fun c => c.DOI == u.DOI) with
        | nil => rfl
        | cons c rest =>
          exfalso
          have hc : c ∈ covered_not_indexed.filter (fun c => c.DOI == u.DOI) := by
            rw [h']; exact List.mem_cons_self _ _
          have := List.mem_filter.mp hc
          exact hex ⟨c, this.1, by simpa using this.2⟩
      have hmem := (build_rows_emits _ none out hout).2 u
        (cov_merge_has_left hu hempty)
      intro hfil
      have hin : new_row_left u ∈ out.filter (fun r => r.DOI == u.DOI) :=
        List.mem_filter.mpr ⟨hmem, by simp [new_row_left]⟩
      rw [hfil] at hin
      cases hin
  · intro r hr hdoi_ru
    have horig := build_rows_all
      (P := fun r => ∃ u₁, u₁ ∈ unionlist ∧
        ((∃ c, c ∈ covered_not_indexed ∧ c.DOI = u₁.DOI ∧
            r = new_row_both u₁ c) ∨
          (covered_not_indexed.filter (fun c => c.DOI == u₁.DOI) = [] ∧
            r = new_row_left u₁)))
      (cov_merge_rows unionlist covered_not_indexed) none out hout
      (fun r' h' => by cases h')
      (fun u' c' h' => by
        obtain ⟨hu', hc', hdoi'⟩ := cov_merge_mem_both h'
        exact ⟨u', hu', Or.inl ⟨c', hc', hdoi', rfl⟩⟩)
      (fun u' h' => by
        obtain ⟨hu', hempty'⟩ := cov_merge_mem_left h'
        exact ⟨u', hu', Or.inr ⟨hempty', rfl⟩⟩)
      r hr
    obtain ⟨u₁, hu₁, hcase⟩ := horig
    have hdoi_r1 : r.DOI = u₁.DOI := by
      rcases hcase with ⟨c, _, _, rfl⟩ | ⟨_, rfl⟩
      · rfl
      · rfl
    obtain rfl : u₁ = u :=
      List.inj_on_of_nodup_map hnodup hu₁ hu (hdoi_r1 ▸ hdoi_ru)
    rcases hcase with ⟨c, hc, hdoic, rfl⟩ | ⟨hempty, rfl⟩
    · refine ⟨rfl, rfl, rfl, rfl, rfl, rfl, ?_, ?_⟩
      · intro _
        show ∀ l, l ∈ label_set c.Covered_In ↔
          (l ∈ label_set u₁.Indexed_In ∨ l = "PubMed")
        rw [hcov c hc]
        have e1 : label_set "Retraction Watch; PubMed" =
            ["Retraction Watch", "PubMed"] := by decide
        rcases hmatched u₁ hu₁ ⟨c, hc, hdoic⟩ with h | h <;> rw [h]
        · have e2 : label_set "Retraction Watch" = ["Retraction Watch"] := by
            decide
          rw [e1, e2]
          intro l
          simp only [List.mem_cons, List.not_mem_nil, or_false]
        · rw [e1]
          intro l
          simp only [List.mem_cons, List.not_mem_nil, or_false]
          tauto
      · intro hnex
        exact absurd ⟨c, hc, hdoic⟩ hnex
    · refine ⟨rfl, rfl, rfl, rfl, rfl, rfl, ?_, fun _ => rfl⟩
      intro hex
      obtain ⟨c, hc, hdoic⟩ := hex
      exfalso
      have hcf : c ∈ covered_not_indexed.filter (fun c => c.DOI == u₁.DOI) :=
        List.mem_filter.mpr ⟨hc, by simpa using hdoic⟩
      rw [hempty] at hcf
      cases hcf

/-- Witness for C3 at the same one-row inputs. -/
theorem coverage_merge_row_semantics_witness :
    ([new_row_both u_cov c_cov].filter (fun r => r.DOI == u_cov.DOI)) ≠ [] :=
  (coverage_merge_row_semantics [u_cov] [c_cov] [new_row_both u_cov c_cov]
    (by decide) (by decide) (by decide) (by decide) u_cov (by decide)).1

/-- C4: on deduplicated inputs the fusion is a true outer join: the output
identifier list has no duplicates and holds exactly the union of the two
input identifier sets; an identifier present in both sources yields a row
with every descriptive field from the PubMed side and the label naming both
sources; and every output PubMed ID is the empty string — never a null or a
zero — when absent (the year is an integer by construction of the
embedding, `Year : Int`, mirroring `astype(int)`). -/
theorem create_union_list_outer_join (A B : List CleanRecord)
    (hA : (A.map CleanRecord.DOI).Nodup) (hB : (B.map CleanRecord.DOI).Nodup) :
    ((create_union_list A B).map FusedRecord.DOI).Nodup ∧
    (∀ d, d ∈ (create_union_list A B).map FusedRecord.DOI ↔
      (d ∈ A.map CleanRecord.DOI ∨ d ∈ B.map CleanRecord.DOI)) ∧
    (∀ a ∈ A, ∀ b ∈ B, a.DOI = b.DOI →
      ∃ r ∈ create_union_list A B,
        r.DOI = a.DOI ∧ r.Author = a.Author ∧ r.Title = a.Title ∧
        r.Year = a.Year ∧ r.Journal = a.Journal ∧
        r.PubMedID = pmid_string a.PubMedID ∧
        r.Indexed_In = "Retraction Watch; PubMed") ∧
    (∀ r ∈ create_union_list A B,
      r.PubMedID = "" ∨ ∃ n : Nat, n ≠ 0 ∧ r.PubMedID = toString n) := by
  have E := create_union_list_dois A B hB
  refine ⟨?_, ?_, ?_, ?_⟩
  · rw [E, List.nodup_append]
    refine ⟨hA, hB.sublist (List.Sublist.map _ (List.filter_sublist _)), ?_⟩
    intro d hdA hdB
    obtain ⟨b, hbf, rfl⟩ := List.mem_map.mp hdB
    have hq := (List.mem_filter.mp hbf).2
    obtain ⟨a, haA, haD⟩ := List.mem_map.mp hdA
    have hne := List.all_eq_true.mp hq a haA
    simp only [Bool.not_eq_true', beq_eq_false_iff_ne, ne_eq] at hne
    exact hne haD
  · intro d
    rw [E, List.mem_append]
    constructor
    · rintro (h | h)
      · exact Or.inl h
      · obtain ⟨b, hbf, rfl⟩ := List.mem_map.mp h
        exact Or.inr (List.mem_map_of_mem _ (List.mem_filter.mp hbf).1)
    · rintro (h | h)
      · exact Or.inl h
      · by_cases hd : d ∈ A.map CleanRecord.DOI
        · exact Or.inl hd
        · obtain ⟨b, hbB, rfl⟩ := List.mem_map.mp h
          refine Or.inr (List.mem_map_of_mem _ (List.mem_filter.mpr ⟨hbB, ?_⟩))
          apply List.all_eq_true.mpr
          intro p hp
          simp only [Bool.not_eq_true', beq_eq_false_iff_ne, ne_eq]
          intro hpd
          exact hd (hpd ▸ List.mem_map_of_mem _ hp)
  · intro a haA b hbB hab
    have hbf : b ∈ B.filter (fun x => x.DOI == a.DOI) :=
      List.mem_filter.mpr ⟨hbB, by simp [hab]⟩
    have hchunk : PmMerge.both a b ∈ pm_chunk B a := by
      simp only [pm_chunk]
      cases hie : (B.filter (fun x => x.DOI == a.DOI)).isEmpty with
      | true =>
        exfalso
        rw [List.isEmpty_iff.mp hie] at hbf
        cases hbf
      | false =>
        rw [if_neg (by simp [hie])]
        exact List.mem_map_of_mem _ hbf
    exact ⟨fused_row (PmMerge.both a b),
      List.mem_map_of_mem _
        (List.mem_append_left _ (List.mem_flatMap.mpr ⟨a, haA, hchunk⟩)),
      rfl, rfl, rfl, rfl, rfl, rfl, rfl⟩
  · intro r hr
    obtain ⟨m, _, rfl⟩ := List.mem_map.mp hr
    cases m <;> exact pmid_string_cases _

/-- Witness for C4 at a concrete pair of deduplicated inputs sharing one
identifier. -/
theorem create_union_list_outer_join_witness :
    ((create_union_list A_fuse B_fuse).map FusedRecord.DOI).Nodup :=
  (create_union_list_outer_join A_fuse B_fuse (by decide) (by decide)).1

/-- C9 as amended: normalization is not idempotent in general (the
counterexample above exhibits `¨`), but a second application can do
no more than trim and lower-case what the re-encoding of the first pass
produced: `normalize ∘ normalize = strip ∘ lower ∘ normalize`.  In
particular idempotence holds exactly on inputs whose normalized form is
already trimmed and lower-case. -/
theorem normalize_second_pass_strips_and_lowers (s : List Nat) :
    clean_pubmed_doi (clean_pubmed_doi s) =
      py_strip (py_lower (clean_pubmed_doi s)) := by
  have hgood : ∀ c ∈ py_strip (py_lower (clean_pubmed_doi s)),
      nfkd c = [c] ∧ latin1_encodable c = true ∧ cp1252_encodable c = true := by
    intro c hc
    obtain ⟨c0, hc0, rfl⟩ := List.mem_map.mp (mem_of_mem_py_strip hc)
    obtain ⟨hst, hle, hcp⟩ := convert_unicode_output_good _ c0 hc0
    have hle' : c0 ≤ 0xFF := by
      simpa only [latin1_encodable, decide_eq_true_eq] using hle
    obtain ⟨h1, h2, h3⟩ := py_lower_char_good c0 hst hle'
    exact ⟨h1, by simp only [latin1_encodable, decide_eq_true_eq]; omega,
      h3 hcp⟩
  show convert_unicode (py_strip (py_lower (clean_pubmed_doi s))) =
    py_strip (py_lower (clean_pubmed_doi s))
  unfold convert_unicode
  rw [encode_pass_fixed latin1_encodable _
      (fun c hc => ⟨(hgood c hc).1, (hgood c hc).2.1⟩),
    encode_pass_fixed latin1_encodable _
      (fun c hc => ⟨(hgood c hc).1, (hgood c hc).2.1⟩),
    encode_pass_fixed cp1252_encodable _
      (fun c hc => ⟨(hgood c hc).1, (hgood c hc).2.2⟩)]

/-- C7: an identifier present only in the coverage-signal input is dropped
without any warning, and the output is corrupted: the merge loop has no
`right_only` branch, so the previous iteration's row is appended a second
time (and when the unmatched coverage row comes first, the loop dies on an
unbound `new_row`, modelled as `none`). -/
theorem coverage_only_identifier_corrupts_output :
    merge_dataframes ul_c7 cni_c7 =
        some [new_row_left u_c7, new_row_left u_c7] ∧
      merge_dataframes [] cni_c7 = none := by decide

end RetractionIndexing
